import Mathlib

/-!
Verification of the NadexBot currency-option core (`CurrencyOption`):
the bisection volatility calibration on the Garman-Kohlhagen-style price
formula, the d1/d2 model state, the delta Greek, the contract-identifier
parsing, and the snapshot update loop.  Real-valued code is embedded over
`ℝ` (Python floats as reals), the standard normal CDF `scipy.stats.norm.cdf`
as the Gaussian integral, and string code over `List Char`.
-/

open MeasureTheory Set Filter Real Topology

namespace NadexBot

/-- The Gaussian integrand `exp(-t^2/2)` of the standard normal density. -/
noncomputable def gaussKernel (t : ℝ) : ℝ := Real.exp (-(t ^ 2) / 2)

theorem gaussKernel_pos (t : ℝ) : 0 < gaussKernel t := Real.exp_pos _

theorem gaussKernel_eq : gaussKernel = fun t : ℝ => Real.exp (-(2⁻¹ : ℝ) * t ^ 2) := by
  funext t
  unfold gaussKernel
  congr 1
  ring

theorem gaussKernel_integrable : Integrable gaussKernel := by
  rw [gaussKernel_eq]
  exact integrable_exp_neg_mul_sq (by norm_num)

theorem gaussKernel_continuous : Continuous gaussKernel := by
  unfold gaussKernel
  fun_prop

theorem gaussKernel_even (t : ℝ) : gaussKernel (-t) = gaussKernel t := by
  unfold gaussKernel
  rw [neg_sq]

theorem gaussKernel_total : (∫ t : ℝ, gaussKernel t) = Real.sqrt (2 * Real.pi) := by
  rw [gaussKernel_eq]
  have h := integral_gaussian (2⁻¹ : ℝ)
  simp only [neg_mul] at h ⊢
  rw [h]
  congr 1
  ring

theorem sqrt_two_pi_pos : 0 < Real.sqrt (2 * Real.pi) :=
  Real.sqrt_pos.mpr (by positivity)

/-- Standard normal CDF: the model of `scipy.stats.norm.cdf(x, 0, 1)`. -/
noncomputable def Phi (x : ℝ) : ℝ :=
  (Real.sqrt (2 * Real.pi))⁻¹ * ∫ t in Set.Iic x, gaussKernel t

theorem Phi_sub_Phi (a b : ℝ) :
    Phi b - Phi a = (Real.sqrt (2 * Real.pi))⁻¹ * ∫ t in a..b, gaussKernel t := by
  unfold Phi
  rw [← mul_sub]
  congr 1
  exact intervalIntegral.integral_Iic_sub_Iic
    gaussKernel_integrable.integrableOn gaussKernel_integrable.integrableOn

theorem Phi_strictMono : StrictMono Phi := by
  intro a b hab
  have hpos : 0 < ∫ t in a..b, gaussKernel t :=
    intervalIntegral.intervalIntegral_pos_of_pos
      gaussKernel_integrable.intervalIntegrable gaussKernel_pos hab
  have h := Phi_sub_Phi a b
  have : 0 < Phi b - Phi a := by
    rw [h]
    positivity
  linarith

theorem Phi_continuous : Continuous Phi := by
  have hrepr : Phi = fun x =>
      Phi 0 + (Real.sqrt (2 * Real.pi))⁻¹ * ∫ t in (0 : ℝ)..x, gaussKernel t := by
    funext x
    have := Phi_sub_Phi 0 x
    linarith
  rw [hrepr]
  exact continuous_const.add
    (continuous_const.mul (gaussKernel_integrable.continuous_primitive 0))

theorem Phi_Iic_add_Ioi (x : ℝ) :
    (∫ t in Set.Iic x, gaussKernel t) + ∫ t in Set.Ioi x, gaussKernel t
      = Real.sqrt (2 * Real.pi) := by
  have h := MeasureTheory.integral_add_compl (measurableSet_Iic (a := x))
    gaussKernel_integrable
  rw [compl_Iic] at h
  rw [h, gaussKernel_total]

theorem gaussKernel_setIntegral_pos {s : Set ℝ}
    (_hs : MeasurableSet s) (hμ : 0 < volume s) :
    0 < ∫ t in s, gaussKernel t := by
  rw [MeasureTheory.setIntegral_pos_iff_support_of_nonneg_ae
    (Eventually.of_forall fun t => (gaussKernel_pos t).le)
    gaussKernel_integrable.integrableOn]
  have hsupp : Function.support gaussKernel = Set.univ := by
    ext t
    simp [Function.support, (gaussKernel_pos t).ne']
  rw [hsupp, Set.univ_inter]
  exact hμ

theorem Phi_pos (x : ℝ) : 0 < Phi x := by
  unfold Phi
  have h : 0 < ∫ t in Set.Iic x, gaussKernel t :=
    gaussKernel_setIntegral_pos measurableSet_Iic (by simp [Real.volume_Iic])
  positivity

theorem Phi_lt_one (x : ℝ) : Phi x < 1 := by
  have hI : 0 < ∫ t in Set.Ioi x, gaussKernel t :=
    gaussKernel_setIntegral_pos measurableSet_Ioi (by simp [Real.volume_Ioi])
  have hsum := Phi_Iic_add_Ioi x
  have hlt : (∫ t in Set.Iic x, gaussKernel t) < Real.sqrt (2 * Real.pi) := by
    linarith
  unfold Phi
  calc (Real.sqrt (2 * Real.pi))⁻¹ * ∫ t in Set.Iic x, gaussKernel t
      < (Real.sqrt (2 * Real.pi))⁻¹ * Real.sqrt (2 * Real.pi) :=
        mul_lt_mul_of_pos_left hlt (inv_pos.mpr sqrt_two_pi_pos)
    _ = 1 := inv_mul_cancel₀ sqrt_two_pi_pos.ne'

theorem Phi_neg_eq (x : ℝ) :
    Phi (-x) = (Real.sqrt (2 * Real.pi))⁻¹ * ∫ t in Set.Ioi x, gaussKernel t := by
  unfold Phi
  congr 1
  have h : (∫ t in Set.Iic (-x), gaussKernel (-t)) = ∫ t in Set.Ioi x, gaussKernel t := by
    rw [integral_comp_neg_Iic]
    rw [neg_neg]
  rw [← h]
  exact setIntegral_congr_fun measurableSet_Iic fun t _ => (gaussKernel_even t).symm

theorem Phi_add_Phi_neg (x : ℝ) : Phi x + Phi (-x) = 1 := by
  rw [Phi_neg_eq]
  unfold Phi
  rw [← mul_add, Phi_Iic_add_Ioi]
  exact inv_mul_cancel₀ sqrt_two_pi_pos.ne'

/-!
## The option fields used by `calculateVolatility` and the Greeks

`MktParams` bundles the instance fields `self.underlying`, `self.strike`,
`self.expiry`, `self.r_domestic`, `self.r_foreign`, `self.buyPrice` and
`self.conversionFactor` that `CurrencyOption.calculateVolatility` reads.
`conversionFactor` is carried as its own field exactly as in the class
(it is assigned `1/underlying` in `__init__` and never reassigned).
-/

open scoped Classical

structure MktParams where
  underlying : ℝ
  strike : ℝ
  expiry : ℝ
  r_domestic : ℝ
  r_foreign : ℝ
  buyPrice : ℝ
  conversionFactor : ℝ

/-- The `self.d1` assignment inside the loop of `calculateVolatility`:
`(log(underlying/strike) + (r_domestic - r_foreign + 0.5*vol*vol)*expiry)
 / (vol*sqrt(expiry))`. -/
noncomputable def d1val (p : MktParams) (v : ℝ) : ℝ :=
  (Real.log (p.underlying / p.strike)
      + (p.r_domestic - p.r_foreign + 0.5 * v * v) * p.expiry)
    / (v * Real.sqrt p.expiry)

/-- The `value` assignment inside the loop:
`exp(-r_domestic*expiry)*norm.cdf(d1, 0, 1)*buyPrice*conversionFactor`. -/
noncomputable def priceVal (p : MktParams) (v : ℝ) : ℝ :=
  Real.exp (-p.r_domestic * p.expiry) * Phi (d1val p v) * p.buyPrice
    * p.conversionFactor

/-- The `elif` update of the bracket `(low, high)` performed by one loop
iteration when the loop does not break: `low = vol` when
`value < buyPrice`, `high = vol` when `value > buyPrice`, with
`vol = (high + low)/2.0`. -/
noncomputable def calibStep (p : MktParams) (lh : ℝ × ℝ) : ℝ × ℝ :=
  if priceVal p ((lh.2 + lh.1) / 2) < p.buyPrice then ((lh.2 + lh.1) / 2, lh.2)
  else if p.buyPrice < priceVal p ((lh.2 + lh.1) / 2) then (lh.1, (lh.2 + lh.1) / 2)
  else lh

/-- The `break` condition of the loop, checked with the freshly computed
`vol = (high + low)/2.0` and `value`:
`abs(buyPrice - value) <= precision or high <= 0.1 or low >= 299.9`. -/
def calibDone (p : MktParams) (prec : ℝ) (lh : ℝ × ℝ) : Prop :=
  |p.buyPrice - priceVal p ((lh.2 + lh.1) / 2)| ≤ prec ∨ lh.2 ≤ 0.1 ∨ 299.9 ≤ lh.1

/-- The initial bracket `low = 0.01`, `high = 300.0` (stored as
`(low, high)`). -/
def calibStart : ℝ × ℝ := (0.01, 300)

/-- Fuel-indexed unfolding of the `while True` loop of
`calculateVolatility`: returns the bracket at which the loop breaks, or
`none` when it does not break within `fuel` iterations. -/
noncomputable def loopGo (p : MktParams) (prec : ℝ) : ℕ → ℝ × ℝ → Option (ℝ × ℝ)
  | 0, _ => none
  | fuel + 1, lh =>
      if calibDone p prec lh then some lh
      else loopGo p prec fuel (calibStep p lh)

/-- The model state produced by `calculateVolatility`: `self.volatility`,
`self.d1`, `self.d2`, `self.d1Squared`, `self.d1d2`, `self.d2Squared`. -/
structure ModelState where
  volatility : ℝ
  d1 : ℝ
  d2 : ℝ
  d1Squared : ℝ
  d1d2 : ℝ
  d2Squared : ℝ

/-- Model of `CurrencyOption.calculateVolatility(precision)`: run the bisection
loop from `(0.01, 300.0)`; on `break`, the final `self.volatility` and
`self.d1` are the ones computed by the breaking iteration, and
`self.d2 = self.d1 - self.volatility*sqrt(self.expiry)` together with the
cached squares are assigned after the loop. -/
noncomputable def calculateVolatility (p : MktParams) (prec : ℝ) (fuel : ℕ) :
    Option ModelState :=
  (loopGo p prec fuel calibStart).map fun lh =>
    let v := (lh.2 + lh.1) / 2
    let D1 := d1val p v
    let D2 := D1 - v * Real.sqrt p.expiry
    ⟨v, D1, D2, D1 * D1, D1 * D2, D2 * D2⟩

/-- Model of `CurrencyOption.delta(short)`:
`-exp(-r_foreign*expiry)*norm.cdf(-d1)` when `short`,
`exp(-r_foreign*expiry)*norm.cdf(d1)` otherwise. -/
noncomputable def delta (p : MktParams) (st : ModelState) (short : Bool) : ℝ :=
  if short then -Real.exp (-p.r_foreign * p.expiry) * Phi (-st.d1)
  else Real.exp (-p.r_foreign * p.expiry) * Phi st.d1

/-- Whenever the loop breaks, the bracket it breaks at satisfies the exit
condition. -/
theorem loopGo_done (p : MktParams) (prec : ℝ) :
    ∀ fuel lh r, loopGo p prec fuel lh = some r → calibDone p prec r := by
  intro fuel
  induction fuel with
  | zero => intro lh r h; simp [loopGo] at h
  | succ n ih =>
      intro lh r h
      by_cases hd : calibDone p prec lh
      · simp only [loopGo] at h
        rw [if_pos hd] at h
        injection h with h
        subst h
        exact hd
      · simp only [loopGo] at h
        rw [if_neg hd] at h
        exact ih _ _ h

/-- If the state reached after `n` steps satisfies the exit condition,
the loop breaks within `n + 1` iterations. -/
theorem loopGo_some_of_done (p : MktParams) (prec : ℝ) :
    ∀ n lh, calibDone p prec ((calibStep p)^[n] lh) →
      ∃ r, loopGo p prec (n + 1) lh = some r := by
  intro n
  induction n with
  | zero =>
      intro lh h
      rw [Function.iterate_zero_apply] at h
      exact ⟨lh, by simp only [loopGo]; rw [if_pos h]⟩
  | succ m ih =>
      intro lh h
      by_cases hd : calibDone p prec lh
      · exact ⟨lh, by simp only [loopGo]; rw [if_pos hd]⟩
      · obtain ⟨r, hr⟩ := ih (calibStep p lh)
          (by rwa [← Function.iterate_succ_apply])
        exact ⟨r, by simp only [loopGo]; rw [if_neg hd]; exact hr⟩

/-!
## Spec-side description of one calibration iteration (for claim C1)

The following definitions are written from the spec's words in §4.2
(steps 2a-2e), not from the source, and are compared with the embedding
of the source above.
-/

/-- Spec §4.2 step 2a: `vol = (low + high) / 2`. -/
noncomputable def specVol (lh : ℝ × ℝ) : ℝ := (lh.1 + lh.2) / 2

/-- Spec §4.2 step 2b:
`d1 = (ln(underlying/strike) + (r_domestic - r_foreign + 0.5*vol^2) * T) / (vol * sqrt(T))`. -/
noncomputable def specD1 (p : MktParams) (v : ℝ) : ℝ :=
  (Real.log (p.underlying / p.strike)
      + (p.r_domestic - p.r_foreign + 0.5 * v ^ 2) * p.expiry)
    / (v * Real.sqrt p.expiry)

/-- Spec §4.2 step 2c:
`modelPrice = exp(-r_domestic * T) * Phi(d1) * referencePrice * conversionFactor`,
with `referencePrice` the buy-side price as in this source. -/
noncomputable def specPrice (p : MktParams) (v : ℝ) : ℝ :=
  Real.exp (-p.r_domestic * p.expiry) * Phi (specD1 p v) * p.buyPrice
    * p.conversionFactor

/-- Spec §4.2 step 2e: when no exit condition holds, `low = vol` if the
model price is below the reference price and `high = vol` if it is
above. -/
noncomputable def specUpdate (p : MktParams) (lh : ℝ × ℝ) : ℝ × ℝ :=
  if specPrice p (specVol lh) < p.buyPrice then (specVol lh, lh.2)
  else if specPrice p (specVol lh) > p.buyPrice then (lh.1, specVol lh)
  else lh

/-- Claim C1: each iteration of the calibration sets `vol = (low+high)/2`,
computes `d1` and the model price by the spec's formulas (with `Phi` the
standard normal CDF and the buy-side price as reference), and, when no
exit condition holds, raises `low` to `vol` when the model price is below
the reference price and lowers `high` to `vol` when it is above; the
embedded source iteration coincides with the spec-side iteration. -/
theorem c1_iteration_matches_spec (p : MktParams) (lh : ℝ × ℝ) (v : ℝ)
    (prec : ℝ) (n : ℕ) :
    specVol lh = (lh.2 + lh.1) / 2 ∧
    specD1 p v = d1val p v ∧
    specPrice p v = priceVal p v ∧
    specUpdate p lh = calibStep p lh ∧
    loopGo p prec (n + 1) lh
      = if calibDone p prec lh then some lh
        else loopGo p prec n (specUpdate p lh) := by
  have hvol : ∀ lh' : ℝ × ℝ, specVol lh' = (lh'.2 + lh'.1) / 2 := by
    intro lh'
    unfold specVol
    ring
  have hd1 : ∀ w, specD1 p w = d1val p w := by
    intro w
    unfold specD1 d1val
    congr 2
    ring
  have hprice : ∀ w, specPrice p w = priceVal p w := by
    intro w
    unfold specPrice priceVal
    rw [hd1]
  have hupd : specUpdate p lh = calibStep p lh := by
    unfold specUpdate calibStep
    rw [hvol, hprice]
  refine ⟨hvol lh, hd1 v, hprice v, hupd, ?_⟩
  rw [hupd]
  rfl

/-- Claim C9: `delta` with the short side equals
`-exp(-r_foreign*T) * Phi(-d1)`, and the long/short difference collapses
to the foreign discount factor via `Phi(d1) + Phi(-d1) = 1`. -/
theorem c9_delta_symmetry (p : MktParams) (st : ModelState) :
    delta p st true = -(Real.exp (-p.r_foreign * p.expiry) * Phi (-st.d1)) ∧
    delta p st false - delta p st true
      = Real.exp (-p.r_foreign * p.expiry) * (Phi st.d1 + Phi (-st.d1)) ∧
    delta p st false - delta p st true = Real.exp (-p.r_foreign * p.expiry) := by
  have h2 : delta p st false - delta p st true
      = Real.exp (-p.r_foreign * p.expiry) * (Phi st.d1 + Phi (-st.d1)) := by
    show Real.exp (-p.r_foreign * p.expiry) * Phi st.d1
        - -Real.exp (-p.r_foreign * p.expiry) * Phi (-st.d1) = _
    ring
  refine ⟨neg_mul _ _, h2, ?_⟩
  show Real.exp (-p.r_foreign * p.expiry) * Phi st.d1
      - -Real.exp (-p.r_foreign * p.expiry) * Phi (-st.d1)
      = Real.exp (-p.r_foreign * p.expiry)
  linear_combination Real.exp (-p.r_foreign * p.expiry) * Phi_add_Phi_neg st.d1

/-- Claim C5: whenever `calculateVolatility` returns, the stored state
satisfies `d2 = d1 - volatility * sqrt(expiry)` with `d1` and
`volatility` the values of the final loop iteration. -/
theorem c5_d2_invariant (p : MktParams) (prec : ℝ) (fuel : ℕ) (st : ModelState)
    (h : calculateVolatility p prec fuel = some st) :
    st.d2 = st.d1 - st.volatility * Real.sqrt p.expiry ∧
    st.d1 = d1val p st.volatility := by
  unfold calculateVolatility at h
  cases hl : loopGo p prec fuel calibStart with
  | none => rw [hl] at h; simp at h
  | some lh =>
      rw [hl] at h
      simp only [Option.map_some'] at h
      injection h with h
      subst h
      exact ⟨rfl, rfl⟩

/-- Degenerate market inputs with a zero buy price: the precision exit
fires on the very first iteration, giving a concrete convergent run. -/
noncomputable def pZero : MktParams := ⟨1, 1, 1, 0, 0, 0, 1⟩

theorem priceVal_pZero (v : ℝ) : priceVal pZero v = 0 := by
  unfold priceVal pZero
  simp

theorem pZero_done : calibDone pZero 1 calibStart := by
  left
  rw [priceVal_pZero]
  norm_num [pZero]

theorem pZero_loopGo : loopGo pZero 1 1 calibStart = some calibStart := by
  simp only [loopGo]
  rw [if_pos pZero_done]

/-- Witness for C5 at the concrete degenerate input `pZero`. -/
theorem c5_d2_invariant_witness :
    ∃ st, calculateVolatility pZero 1 1 = some st ∧
      st.d2 = st.d1 - st.volatility * Real.sqrt pZero.expiry := by
  obtain ⟨st, hst⟩ : ∃ st, calculateVolatility pZero 1 1 = some st := by
    rw [calculateVolatility, pZero_loopGo]
    exact ⟨_, rfl⟩
  exact ⟨st, hst, (c5_d2_invariant pZero 1 1 st hst).1⟩

/-!
## The degenerate calibration regime (claims C10, C4, C2)
-/

/-- With `underlying > 1`, nonnegative domestic rate, positive buy price
and `conversionFactor = 1/underlying`, every candidate model price is
below `buyPrice/underlying`: the discount factor is at most one and
`Phi < 1`. -/
theorem priceVal_lt_buy_div (p : MktParams) (hT : 0 < p.expiry)
    (hS : 1 < p.underlying) (hrd : 0 ≤ p.r_domestic) (hP : 0 < p.buyPrice)
    (hcf : p.conversionFactor = 1 / p.underlying) (v : ℝ) :
    priceVal p v < p.buyPrice * (1 / p.underlying) := by
  unfold priceVal
  rw [hcf]
  have hexp1 : Real.exp (-p.r_domestic * p.expiry) ≤ 1 := by
    rw [Real.exp_le_one_iff]
    nlinarith
  have hexp0 : 0 < Real.exp (-p.r_domestic * p.expiry) := Real.exp_pos _
  have hPhi1 : Phi (d1val p v) < 1 := Phi_lt_one _
  have hPhi0 : 0 < Phi (d1val p v) := Phi_pos _
  have hinv : 0 < 1 / p.underlying := by positivity
  have h1 : Real.exp (-p.r_domestic * p.expiry) * Phi (d1val p v) < 1 := by
    nlinarith
  nlinarith [mul_pos (mul_pos (sub_pos.mpr h1) hP) hinv]

/-- Under the C10 hypotheses the model price is always strictly below the
buy price and the precision exit can never fire. -/
theorem priceVal_never_matches (p : MktParams) (prec : ℝ) (hT : 0 < p.expiry)
    (hS : 1 < p.underlying) (hrd : 0 ≤ p.r_domestic) (hP : 0 < p.buyPrice)
    (hcf : p.conversionFactor = 1 / p.underlying)
    (hprec : prec < p.buyPrice * (1 - 1 / p.underlying)) (v : ℝ) :
    priceVal p v < p.buyPrice ∧ ¬ (|p.buyPrice - priceVal p v| ≤ prec) := by
  have h := priceVal_lt_buy_div p hT hS hrd hP hcf v
  have hS0 : 0 < p.underlying := by linarith
  have hfrac : 1 / p.underlying < 1 := by
    rw [div_lt_one hS0]
    exact hS
  have hlt : priceVal p v < p.buyPrice := by nlinarith
  refine ⟨hlt, ?_⟩
  rw [not_le, abs_of_pos (sub_pos.mpr hlt)]
  nlinarith

/-- The sequence of `low` values produced when every iteration raises
`low` to the midpoint against a fixed `high = 300`. -/
noncomputable def lowSeq (l : ℝ) : ℕ → ℝ
  | 0 => l
  | n + 1 => (300 + lowSeq l n) / 2

theorem lowSeq_shift (l : ℝ) : ∀ k, lowSeq ((300 + l) / 2) k = lowSeq l (k + 1) := by
  intro k
  induction k with
  | zero => rfl
  | succ m ih => show (300 + lowSeq ((300 + l) / 2) m) / 2 = _; rw [ih]; rfl

/-- When every step is a `low`-update and no exit condition holds while
`low < 299.9`, the loop walks the `lowSeq` orbit. -/
theorem loopGo_lowSeq (p : MktParams) (prec : ℝ)
    (hstep : ∀ lh, calibStep p lh = ((lh.2 + lh.1) / 2, lh.2)) :
    ∀ (n m : ℕ) (l : ℝ), (∀ k, k < n → ¬ calibDone p prec (lowSeq l k, 300)) →
      loopGo p prec (n + m) (l, 300) = loopGo p prec m (lowSeq l n, 300) := by
  intro n
  induction n with
  | zero => intro m l _; rw [Nat.zero_add]; simp [lowSeq]
  | succ n ih =>
      intro m l hnd
      rw [show n + 1 + m = n + m + 1 from by omega]
      have h0 : ¬ calibDone p prec (l, 300) := hnd 0 (Nat.succ_pos n)
      have hstep' : calibStep p (l, 300) = ((300 + l) / 2, 300) := hstep (l, 300)
      calc loopGo p prec (n + m + 1) (l, 300)
          = loopGo p prec (n + m) ((300 + l) / 2, 300) := by
            simp only [loopGo]
            rw [if_neg h0, hstep']
        _ = loopGo p prec m (lowSeq ((300 + l) / 2) n, 300) := by
            refine ih m ((300 + l) / 2) ?_
            intro k hk
            rw [lowSeq_shift]
            exact hnd (k + 1) (by omega)
        _ = loopGo p prec m (lowSeq l (n + 1), 300) := by
            rw [lowSeq_shift]

/-- Claim C10: with `T > 0`, positive strike, `underlying > 1`,
nonnegative domestic rate, positive buy price, the initial conversion
factor `1/underlying` and any precision below
`buyPrice*(1 - 1/underlying)`, the model price is always strictly below
the buy price, the precision exit can never fire, every bisection step
raises `low`, the loop has not exited after 12 iterations, and
calibration exits at iteration 13 through the `low >= 299.9` escape with
a volatility of at least 299.9. -/
theorem c10_degenerate_calibration (p : MktParams) (prec : ℝ)
    (hT : 0 < p.expiry) (_hK : 0 < p.strike) (hS : 1 < p.underlying)
    (hrd : 0 ≤ p.r_domestic) (hP : 0 < p.buyPrice)
    (hcf : p.conversionFactor = 1 / p.underlying)
    (hprec : prec < p.buyPrice * (1 - 1 / p.underlying)) :
    (∀ v, priceVal p v < p.buyPrice) ∧
    (∀ v, ¬ (|p.buyPrice - priceVal p v| ≤ prec)) ∧
    (∀ lh, calibStep p lh = ((lh.2 + lh.1) / 2, lh.2)) ∧
    loopGo p prec 12 calibStart = none ∧
    (∃ st, calculateVolatility p prec 13 = some st ∧ 299.9 ≤ st.volatility) := by
  have hmain := priceVal_never_matches p prec hT hS hrd hP hcf hprec
  have hlt : ∀ v, priceVal p v < p.buyPrice := fun v => (hmain v).1
  have habs : ∀ v, ¬ (|p.buyPrice - priceVal p v| ≤ prec) := fun v => (hmain v).2
  have hstep : ∀ lh, calibStep p lh = ((lh.2 + lh.1) / 2, lh.2) := by
    intro lh
    unfold calibStep
    rw [if_pos (hlt _)]
  have hnd : ∀ l : ℝ, l < 299.9 → ¬ calibDone p prec (l, 300) := by
    intro l hl hdone
    rcases hdone with h | h | h
    · exact habs _ h
    · norm_num at h
    · simp only at h
      linarith
  have hlow : ∀ k, k < 12 → lowSeq (0.01 : ℝ) k < 299.9 := by
    intro k hk
    interval_cases k <;> norm_num [lowSeq]
  have hrun12 : loopGo p prec 12 calibStart
      = loopGo p prec 0 (lowSeq (0.01 : ℝ) 12, 300) := by
    have := loopGo_lowSeq p prec hstep 12 0 (0.01 : ℝ)
      (fun k hk => hnd _ (hlow k hk))
    simpa using this
  have hrun13 : loopGo p prec 13 calibStart
      = loopGo p prec 1 (lowSeq (0.01 : ℝ) 12, 300) := by
    have := loopGo_lowSeq p prec hstep 12 1 (0.01 : ℝ)
      (fun k hk => hnd _ (hlow k hk))
    simpa using this
  have h12ge : (299.9 : ℝ) ≤ lowSeq (0.01 : ℝ) 12 := by norm_num [lowSeq]
  have hdone12 : calibDone p prec (lowSeq (0.01 : ℝ) 12, 300) :=
    Or.inr (Or.inr h12ge)
  have hfinal : loopGo p prec 13 calibStart = some (lowSeq (0.01 : ℝ) 12, 300) := by
    rw [hrun13]
    simp only [loopGo]
    rw [if_pos hdone12]
  refine ⟨hlt, habs, hstep, by rw [hrun12]; rfl, ?_⟩
  refine ⟨_, by rw [calculateVolatility, hfinal]; rfl, ?_⟩
  show (299.9 : ℝ) ≤ ((lowSeq (0.01 : ℝ) 12, (300 : ℝ)).2
      + (lowSeq (0.01 : ℝ) 12, (300 : ℝ)).1) / 2
  simp only
  norm_num [lowSeq]

/-- The concrete degenerate market of the C10 witness and the C4
counterexample: `underlying = 2`, unit strike and expiry, zero rates,
buy price `100`, conversion factor `1/2`, precision `1`. -/
noncomputable def pBig : MktParams := ⟨2, 1, 1, 0, 0, 100, 1 / 2⟩

/-- Witness for C10 at the concrete input `pBig` with precision `1`. -/
theorem c10_degenerate_calibration_witness :
    ((0 : ℝ) < pBig.expiry ∧ (0 : ℝ) < pBig.strike ∧ (1 : ℝ) < pBig.underlying ∧
      (0 : ℝ) ≤ pBig.r_domestic ∧ (0 : ℝ) < pBig.buyPrice ∧
      pBig.conversionFactor = 1 / pBig.underlying ∧
      (1 : ℝ) < pBig.buyPrice * (1 - 1 / pBig.underlying)) ∧
    (∃ st, calculateVolatility pBig 1 13 = some st ∧ 299.9 ≤ st.volatility) := by
  refine ⟨by norm_num [pBig], ?_⟩
  exact (c10_degenerate_calibration pBig 1 (by norm_num [pBig]) (by norm_num [pBig])
    (by norm_num [pBig]) (by norm_num [pBig]) (by norm_num [pBig])
    (by norm_num [pBig]) (by norm_num [pBig])).2.2.2.2

/-- Claim C4 (amended): when the loop exits with a non-degenerate bracket
(`high > 0.1` and `low < 299.9` at exit), the exit was the precision
test, so the forward price at the returned volatility reproduces the
reference price within the precision. -/
theorem c4_roundtrip_precision_exit (p : MktParams) (prec : ℝ) (fuel : ℕ)
    (lh : ℝ × ℝ) (h : loopGo p prec fuel calibStart = some lh)
    (hhigh : 0.1 < lh.2) (hlow : lh.1 < 299.9) :
    ∃ st, calculateVolatility p prec fuel = some st ∧
      |p.buyPrice - priceVal p st.volatility| ≤ prec := by
  rcases loopGo_done p prec fuel calibStart lh h with habs | hh | hl
  · refine ⟨_, by rw [calculateVolatility, h]; rfl, ?_⟩
    exact habs
  · linarith
  · linarith

/-- Witness for the amended C4 at the degenerate zero-price input, whose
first iteration exits through the precision test. -/
theorem c4_roundtrip_precision_exit_witness :
    loopGo pZero 1 1 calibStart = some calibStart ∧
    (0.1 : ℝ) < calibStart.2 ∧ calibStart.1 < 299.9 ∧
    ∃ st, calculateVolatility pZero 1 1 = some st ∧
      |pZero.buyPrice - priceVal pZero st.volatility| ≤ 1 :=
  ⟨pZero_loopGo, by norm_num [calibStart], by norm_num [calibStart],
    c4_roundtrip_precision_exit pZero 1 1 calibStart pZero_loopGo
      (by norm_num [calibStart]) (by norm_num [calibStart])⟩

/-- Counterexample to claim C4 as stated: at the valid market `pBig` with
precision `1`, calibration terminates (through the `low >= 299.9`
escape) but the forward price at the returned volatility misses the
observed reference price by more than the precision. -/
theorem c4_roundtrip_counterexample :
    ∃ st, calculateVolatility pBig 1 13 = some st ∧
      ¬ (|pBig.buyPrice - priceVal pBig st.volatility| ≤ 1) := by
  have h := c10_degenerate_calibration pBig 1 (by norm_num [pBig])
    (by norm_num [pBig]) (by norm_num [pBig]) (by norm_num [pBig])
    (by norm_num [pBig]) (by norm_num [pBig]) (by norm_num [pBig])
  obtain ⟨st, hst, _⟩ := h.2.2.2.2
  exact ⟨st, hst, h.2.1 st.volatility⟩

/-- Counterexample to claim C2 as stated: with positive expiry, strike
and underlying but a zero reference price and precision `-1`, no exit
condition ever holds and the bracket never moves, so the loop never
terminates (no fuel suffices). -/
theorem c2_nontermination_counterexample :
    0 < pZero.expiry ∧ 0 < pZero.strike ∧ 0 < pZero.underlying ∧
    ¬ ∃ fuel lh, loopGo pZero (-1) fuel calibStart = some lh := by
  have hstep : calibStep pZero calibStart = calibStart := by
    unfold calibStep
    rw [priceVal_pZero]
    rw [if_neg (by norm_num [pZero]), if_neg (by norm_num [pZero])]
  have hnd : ¬ calibDone pZero (-1) calibStart := by
    intro h
    rcases h with h | h | h
    · rw [priceVal_pZero] at h
      norm_num [pZero] at h
    · norm_num [calibStart] at h
    · norm_num [calibStart] at h
  have hall : ∀ fuel, loopGo pZero (-1) fuel calibStart = none := by
    intro fuel
    induction fuel with
    | zero => rfl
    | succ n ih =>
        simp only [loopGo]
        rw [if_neg hnd, hstep]
        exact ih
  refine ⟨by norm_num [pZero], by norm_num [pZero], by norm_num [pZero], ?_⟩
  rintro ⟨fuel, lh, hsome⟩
  rw [hall fuel] at hsome
  cases hsome

/-- In-the-money market used against the monotonicity claim C3:
`underlying/strike = e`, equal rates, unit reference price, unit
conversion factor and unit expiry. -/
noncomputable def pITM : MktParams :=
  ⟨Real.exp 1, 1, 1, 256 / 10000, 256 / 10000, 1, 1⟩

theorem d1val_pITM (v : ℝ) : d1val pITM v = (1 + 0.5 * v * v) / v := by
  unfold d1val pITM
  simp only
  rw [div_one, Real.log_exp, Real.sqrt_one, mul_one]
  norm_num

/-- Counterexample to claim C3 as stated: at the in-the-money market
`pITM`, the loop's model price is strictly larger at volatility `1/10`
than at volatility `1`, although `0.01 < 1/10 < 1 < 300`: the price is
not increasing in volatility. -/
theorem c3_not_monotone_counterexample :
    (0.01 : ℝ) < 1 / 10 ∧ (1 / 10 : ℝ) < 1 ∧ (1 : ℝ) < 300 ∧
    priceVal pITM 1 < priceVal pITM (1 / 10) := by
  refine ⟨by norm_num, by norm_num, by norm_num, ?_⟩
  have hd : d1val pITM 1 < d1val pITM (1 / 10) := by
    rw [d1val_pITM, d1val_pITM]
    norm_num
  have hPhi := Phi_strictMono hd
  unfold priceVal
  have he : 0 < Real.exp (-pITM.r_domestic * pITM.expiry) := Real.exp_pos _
  have hP : pITM.buyPrice = 1 := rfl
  have hcf : pITM.conversionFactor = 1 := rfl
  rw [hP, hcf, mul_one, mul_one, mul_one, mul_one]
  exact mul_lt_mul_of_pos_left hPhi he

/-- Claim C3 (amended): for positive expiry, positive reference price and
conversion factor, and an at- or out-of-the-money forward
(`ln(underlying/strike) + (r_domestic - r_foreign)*T <= 0`), the loop's
model price is strictly increasing in volatility on `(0.01, 300)`. -/
theorem c3_monotone_otm (p : MktParams) (v1 v2 : ℝ) (hT : 0 < p.expiry)
    (hP : 0 < p.buyPrice) (hcf : 0 < p.conversionFactor)
    (hotm : Real.log (p.underlying / p.strike)
        + (p.r_domestic - p.r_foreign) * p.expiry ≤ 0)
    (h1 : 0.01 < v1) (h12 : v1 < v2) (_h2 : v2 < 300) :
    priceVal p v1 < priceVal p v2 := by
  have hs : 0 < Real.sqrt p.expiry := Real.sqrt_pos.mpr hT
  have hv1 : 0 < v1 := by linarith
  have hv2 : 0 < v2 := lt_trans hv1 h12
  have hd : d1val p v1 < d1val p v2 := by
    unfold d1val
    rw [div_lt_div_iff₀ (by positivity) (by positivity)]
    nlinarith [mul_nonneg (mul_nonneg (sub_pos.mpr h12).le hs.le)
        (neg_nonneg.mpr hotm),
      mul_pos (mul_pos (mul_pos (mul_pos (sub_pos.mpr h12) hs) hT) hv1) hv2]
  have hPhi := Phi_strictMono hd
  unfold priceVal
  have he : 0 < Real.exp (-p.r_domestic * p.expiry) := Real.exp_pos _
  exact mul_lt_mul_of_pos_right
    (mul_lt_mul_of_pos_right (mul_lt_mul_of_pos_left hPhi he) hP) hcf

/-- At-the-money market with equal rates: the amended C3 hypothesis holds. -/
noncomputable def pATM : MktParams := ⟨1, 1, 1, 0, 0, 1, 1⟩

/-- Witness for the amended C3 at the concrete at-the-money input. -/
theorem c3_monotone_otm_witness :
    ((0 : ℝ) < pATM.expiry ∧ (0 : ℝ) < pATM.buyPrice ∧
      (0 : ℝ) < pATM.conversionFactor ∧
      Real.log (pATM.underlying / pATM.strike)
        + (pATM.r_domestic - pATM.r_foreign) * pATM.expiry ≤ 0 ∧
      (0.01 : ℝ) < 1 ∧ (1 : ℝ) < 2 ∧ (2 : ℝ) < 300) ∧
    priceVal pATM 1 < priceVal pATM 2 := by
  have hotm : Real.log (pATM.underlying / pATM.strike)
      + (pATM.r_domestic - pATM.r_foreign) * pATM.expiry ≤ 0 := by
    norm_num [pATM, Real.log_one]
  refine ⟨⟨by norm_num [pATM], by norm_num [pATM], by norm_num [pATM], hotm,
    by norm_num, by norm_num, by norm_num⟩, ?_⟩
  exact c3_monotone_otm pATM 1 2 (by norm_num [pATM]) (by norm_num [pATM])
    (by norm_num [pATM]) hotm (by norm_num) (by norm_num) (by norm_num)

/-!
## Termination of the bisection loop for positive precision (claim C2)
-/

/-- The bracket invariant maintained by the loop. -/
def bracketInv (lh : ℝ × ℝ) : Prop := 0.01 ≤ lh.1 ∧ lh.1 < lh.2 ∧ lh.2 ≤ 300

theorem bracketInv_step (p : MktParams) (lh : ℝ × ℝ) (h : bracketInv lh) :
    bracketInv (calibStep p lh) := by
  obtain ⟨h1, h2, h3⟩ := h
  unfold calibStep
  split_ifs <;> refine ⟨?_, ?_, ?_⟩ <;> dsimp only <;> linarith

theorem calibStep_mono (p : MktParams) (lh : ℝ × ℝ) (h : bracketInv lh) :
    lh.1 ≤ (calibStep p lh).1 ∧ (calibStep p lh).2 ≤ lh.2 := by
  obtain ⟨h1, h2, h3⟩ := h
  unfold calibStep
  split_ifs <;> constructor <;> dsimp only <;> linarith

theorem calibStep_width (p : MktParams) (prec : ℝ) (lh : ℝ × ℝ)
    (hprec : 0 < prec) (hnd : ¬ calibDone p prec lh) :
    (calibStep p lh).2 - (calibStep p lh).1 = (lh.2 - lh.1) / 2 := by
  have hne : priceVal p ((lh.2 + lh.1) / 2) ≠ p.buyPrice := by
    intro he
    apply hnd
    left
    rw [he, sub_self, abs_zero]
    linarith
  unfold calibStep
  split_ifs with ha hb
  · dsimp only; ring
  · dsimp only; ring
  · exact absurd (le_antisymm (not_lt.mp hb) (not_lt.mp ha)) hne

/-- Any `high` value along the orbit is either the initial `300` or a
midpoint at which the model price was above the reference price. -/
theorem high_source (p : MktParams) :
    ∀ n : ℕ, ((calibStep p)^[n] calibStart).2 = 300 ∨
      p.buyPrice < priceVal p (((calibStep p)^[n] calibStart).2) := by
  intro n
  induction n with
  | zero => left; rfl
  | succ m ih =>
      rw [Function.iterate_succ_apply']
      generalize hlh : (calibStep p)^[m] calibStart = lh at ih
      unfold calibStep
      split_ifs with ha hb
      · exact ih
      · right; exact hb
      · exact ih

/-- Any `low` value along the orbit is either the initial `0.01` or a
midpoint at which the model price was below the reference price. -/
theorem low_source (p : MktParams) :
    ∀ n : ℕ, ((calibStep p)^[n] calibStart).1 = 0.01 ∨
      priceVal p (((calibStep p)^[n] calibStart).1) < p.buyPrice := by
  intro n
  induction n with
  | zero => left; rfl
  | succ m ih =>
      rw [Function.iterate_succ_apply']
      generalize hlh : (calibStep p)^[m] calibStart = lh at ih
      unfold calibStep
      split_ifs with ha hb
      · right; exact ha
      · exact ih
      · exact ih

/-- With positive expiry and positive precision, some iterate of the
bisection satisfies the exit condition. -/
theorem calib_done_eventually (p : MktParams) (prec : ℝ)
    (hT : 0 < p.expiry) (hprec : 0 < prec) :
    ∃ n, calibDone p prec ((calibStep p)^[n] calibStart) := by
  by_contra hcon
  push_neg at hcon
  set F := fun n => (calibStep p)^[n] calibStart with hF
  have hcon' : ∀ n, ¬ calibDone p prec (F n) := hcon
  have hsucc : ∀ n, F (n + 1) = calibStep p (F n) := fun n =>
    Function.iterate_succ_apply' (calibStep p) n calibStart
  have hInv : ∀ n, bracketInv (F n) := by
    intro n
    induction n with
    | zero =>
        refine ⟨le_refl _, ?_, ?_⟩ <;> norm_num [hF, calibStart]
    | succ m ih => rw [hsucc]; exact bracketInv_step p _ ih
  have hlowmono : Monotone fun n => (F n).1 :=
    monotone_nat_of_le_succ fun n => by
      rw [hsucc]; exact (calibStep_mono p _ (hInv n)).1
  have hhighanti : Antitone fun n => (F n).2 :=
    antitone_nat_of_succ_le fun n => by
      rw [hsucc]; exact (calibStep_mono p _ (hInv n)).2
  have hlowbdd : BddAbove (Set.range fun n => (F n).1) := by
    refine ⟨300, ?_⟩
    rintro x ⟨n, rfl⟩
    have h := hInv n
    dsimp only
    linarith [h.2.1, h.2.2]
  have hhighbdd : BddBelow (Set.range fun n => (F n).2) := by
    refine ⟨0.01, ?_⟩
    rintro x ⟨n, rfl⟩
    have h := hInv n
    dsimp only
    linarith [h.1, h.2.1]
  set L := ⨆ n, (F n).1 with hLdef
  set H := ⨅ n, (F n).2 with hHdef
  have hLt : Tendsto (fun n => (F n).1) atTop (𝓝 L) :=
    tendsto_atTop_ciSup hlowmono hlowbdd
  have hHt : Tendsto (fun n => (F n).2) atTop (𝓝 H) :=
    tendsto_atTop_ciInf hhighanti hhighbdd
  have hwidth : ∀ n, (F n).2 - (F n).1 = 299.99 / 2 ^ n := by
    intro n
    induction n with
    | zero => show calibStart.2 - calibStart.1 = _; norm_num [calibStart]
    | succ m ih =>
        rw [hsucc, calibStep_width p prec _ hprec (hcon' m), ih, pow_succ]
        ring
  have hwt : Tendsto (fun n => (F n).2 - (F n).1) atTop (𝓝 0) := by
    have h2 : Tendsto (fun n : ℕ => ((2 : ℝ)⁻¹) ^ n) atTop (𝓝 0) :=
      tendsto_pow_atTop_nhds_zero_of_lt_one (by norm_num) (by norm_num)
    have h3 := h2.const_mul (299.99 : ℝ)
    rw [mul_zero] at h3
    refine Tendsto.congr (fun n => ?_) h3
    rw [hwidth n, div_eq_mul_inv, inv_pow]
  have hHL : H = L := by
    have h1 : Tendsto (fun n => (F n).2 - (F n).1) atTop (𝓝 (H - L)) :=
      hHt.sub hLt
    have h0 := tendsto_nhds_unique h1 hwt
    linarith
  have hlow_lt : ∀ n, (F n).1 < 299.9 := by
    intro n
    by_contra hx
    exact hcon' n (Or.inr (Or.inr (not_lt.mp hx)))
  have hhigh_gt : ∀ n, 0.1 < (F n).2 := by
    intro n
    by_contra hx
    exact hcon' n (Or.inr (Or.inl (not_lt.mp hx)))
  have hL_le : L ≤ 299.9 :=
    le_of_tendsto hLt (Eventually.of_forall fun n => (hlow_lt n).le)
  have hH_ge : (0.1 : ℝ) ≤ H :=
    ge_of_tendsto hHt (Eventually.of_forall fun n => (hhigh_gt n).le)
  have hL_ge : (0.01 : ℝ) ≤ L := by
    have h0 : (F 0).1 ≤ L := le_ciSup hlowbdd 0
    have h1 : (F 0).1 = 0.01 := rfl
    linarith
  have hmid : Tendsto (fun n => ((F n).2 + (F n).1) / 2) atTop (𝓝 L) := by
    have h1 := (hHt.add hLt).div_const 2
    rw [hHL, show (L + L) / 2 = L from by ring] at h1
    exact h1
  have hLpos : (0 : ℝ) < L := lt_of_lt_of_le (by norm_num) hL_ge
  have hfc : ContinuousAt (fun v => priceVal p v) L := by
    have hnum : ContinuousAt (fun v : ℝ => Real.log (p.underlying / p.strike)
        + (p.r_domestic - p.r_foreign + 0.5 * v * v) * p.expiry) L := by fun_prop
    have hden : ContinuousAt (fun v : ℝ => v * Real.sqrt p.expiry) L := by fun_prop
    have hne : L * Real.sqrt p.expiry ≠ 0 :=
      mul_ne_zero hLpos.ne' (Real.sqrt_pos.mpr hT).ne'
    have hd1 : ContinuousAt (fun v => d1val p v) L := hnum.div hden hne
    have hPhiAt : ContinuousAt Phi (d1val p L) := Phi_continuous.continuousAt
    exact ((continuousAt_const.mul (hPhiAt.comp hd1)).mul
      continuousAt_const).mul continuousAt_const
  have hfmid : Tendsto (fun n => priceVal p (((F n).2 + (F n).1) / 2)) atTop
      (𝓝 (priceVal p L)) := hfc.tendsto.comp hmid
  have habs : ∀ n, prec < |p.buyPrice - priceVal p (((F n).2 + (F n).1) / 2)| := by
    intro n
    by_contra hx
    exact hcon' n (Or.inl (not_lt.mp hx))
  have habs_lim : prec ≤ |p.buyPrice - priceVal p L| := by
    have h1 : Tendsto (fun n => |p.buyPrice - priceVal p (((F n).2 + (F n).1) / 2)|)
        atTop (𝓝 |p.buyPrice - priceVal p L|) := (tendsto_const_nhds.sub hfmid).abs
    exact ge_of_tendsto h1 (Eventually.of_forall fun n => (habs n).le)
  have hne : priceVal p L ≠ p.buyPrice := by
    intro he
    rw [he, sub_self, abs_zero] at habs_lim
    linarith
  rcases lt_or_gt_of_ne hne with hlt | hgt
  · have hev : ∀ᶠ n in atTop, priceVal p (((F n).2 + (F n).1) / 2) < p.buyPrice :=
      hfmid.eventually_lt_const hlt
    obtain ⟨N, hN⟩ := eventually_atTop.mp hev
    have hhconst : ∀ n, N ≤ n → (F n).2 = (F N).2 := by
      intro n hn
      induction n, hn using Nat.le_induction with
      | base => rfl
      | succ m hm ih =>
          rw [hsucc]
          unfold calibStep
          rw [if_pos (hN m hm)]
          exact ih
    have hHN : H = (F N).2 := by
      have hconst : (fun _ : ℕ => (F N).2) =ᶠ[atTop] fun n => (F n).2 := by
        filter_upwards [eventually_ge_atTop N] with n hn
        exact (hhconst n hn).symm
      exact tendsto_nhds_unique hHt (Tendsto.congr' hconst tendsto_const_nhds)
    rcases high_source p N with h300 | hPlt
    · have : L = (300 : ℝ) := by rw [← hHL, hHN, h300]
      linarith
    · have hfix : (F N).2 = L := by rw [← hHN, hHL]
      rw [hfix] at hPlt
      linarith
  · have hev : ∀ᶠ n in atTop, p.buyPrice < priceVal p (((F n).2 + (F n).1) / 2) :=
      hfmid.eventually_const_lt hgt
    obtain ⟨N, hN⟩ := eventually_atTop.mp hev
    have hlconst : ∀ n, N ≤ n → (F n).1 = (F N).1 := by
      intro n hn
      induction n, hn using Nat.le_induction with
      | base => rfl
      | succ m hm ih =>
          rw [hsucc]
          unfold calibStep
          rw [if_neg (lt_asymm (hN m hm)), if_pos (hN m hm)]
          exact ih
    have hLN : L = (F N).1 := by
      have hconst : (fun _ : ℕ => (F N).1) =ᶠ[atTop] fun n => (F n).1 := by
        filter_upwards [eventually_ge_atTop N] with n hn
        exact (hlconst n hn).symm
      exact tendsto_nhds_unique hLt (Tendsto.congr' hconst tendsto_const_nhds)
    rcases low_source p N with h001 | hflt
    · rw [h001] at hLN
      have : (0.1 : ℝ) ≤ L := by rw [← hHL]; exact hH_ge
      rw [hLN] at this
      linarith
    · rw [← hLN] at hflt
      linarith

/-- Claim C2 (amended): for every positive expiry, strike and underlying,
any reference price and any positive precision, the calibration loop
terminates, and it only ever exits through one of the three exit
conditions. -/
theorem c2_terminates_pos_precision (p : MktParams) (prec : ℝ)
    (hT : 0 < p.expiry) (_hK : 0 < p.strike) (_hS : 0 < p.underlying)
    (hprec : 0 < prec) :
    (∃ fuel lh, loopGo p prec fuel calibStart = some lh) ∧
    (∀ fuel lh r, loopGo p prec fuel lh = some r → calibDone p prec r) := by
  obtain ⟨n, hn⟩ := calib_done_eventually p prec hT hprec
  obtain ⟨r, hr⟩ := loopGo_some_of_done p prec n calibStart hn
  exact ⟨⟨n + 1, r, hr⟩, loopGo_done p prec⟩

/-- Witness for the amended C2 at the concrete input `pZero` with
precision `1`. -/
theorem c2_terminates_pos_precision_witness :
    ((0 : ℝ) < pZero.expiry ∧ (0 : ℝ) < pZero.strike ∧
      (0 : ℝ) < pZero.underlying ∧ (0 : ℝ) < 1) ∧
    ∃ fuel lh, loopGo pZero 1 fuel calibStart = some lh :=
  ⟨by norm_num [pZero],
    (c2_terminates_pos_precision pZero 1 (by norm_num [pZero])
      (by norm_num [pZero]) (by norm_num [pZero]) (by norm_num)).1⟩

/-!
## The contract-identifier parsing of `CurrencyOption.__init__` (claim C7)

Python strings are embedded as `List Char`.  `splitChar sep` models
Python's `str.split(sep)` for a one-character separator: it keeps empty
tokens between adjacent separators and returns one (possibly empty)
token for the empty string.
-/

def splitChar (sep : Char) : List Char → List (List Char)
  | [] => [[]]
  | c :: rest =>
      let r := splitChar sep rest
      if c = sep then [] :: r
      else
        match r with
        | t :: ts => (c :: t) :: ts
        | [] => [[c]]

/-- Python `str.split(pred)` with a character predicate, keeping empty tokens. -/
def splitPred (pred : Char → Bool) : List Char → List (List Char)
  | [] => [[]]
  | c :: rest =>
      let r := splitPred pred rest
      if pred c then [] :: r
      else
        match r with
        | t :: ts => (c :: t) :: ts
        | [] => [[c]]

/-- The whitespace tokens of a string: Python's argumentless
`str.split()`, the reading used by the spec's phrase
"whitespace-separated tokens". -/
def wsTokens (cs : List Char) : List (List Char) :=
  (splitPred Char.isWhitespace cs).filter (fun t => t ≠ [])

/-- Python's negative index `l[-2]`: `IndexError` (here `none`) when the
list has fewer than two elements. -/
def pyIdxNeg2 {α : Type} (l : List α) : Option α :=
  if 2 ≤ l.length then l[l.length - 2]? else none

/-- The value of a nonempty all-digit string. -/
def digitsVal (s : List Char) : Option ℕ :=
  if s.isEmpty then none
  else if s.all Char.isDigit then
    some (s.foldl (fun n c => 10 * n + (c.toNat - 48)) 0)
  else none

/-- Models Python `float(...)` on the plain decimal literals occurring in
strike tokens (optional sign, digits, optional fraction; no exponent
forms), as an exact rational. -/
def pyFloatCore (t : List Char) : Option ℚ :=
  match splitChar '.' t with
  | [a] => (digitsVal a).map fun n => (n : ℚ)
  | [a, b] =>
      if a.isEmpty && b.isEmpty then none
      else
        match (if a.isEmpty then some 0 else digitsVal a),
            (if b.isEmpty then some ((0 : ℕ), (0 : ℕ))
             else (digitsVal b).map fun m => (m, b.length)) with
        | some i, some (m, k) => some ((i : ℚ) + (m : ℚ) / (10 : ℚ) ^ k)
        | _, _ => none
  | _ => none

def pyFloat (s : List Char) : Option ℚ :=
  match s with
  | '-' :: rest => (pyFloatCore rest).map fun q => -q
  | '+' :: rest => pyFloatCore rest
  | _ => pyFloatCore s

/-- The class-level rate table `CurrencyOption.riskFreeRates`. -/
def riskFreeRates : List (List Char × ℚ) :=
  [("AUD".toList, 371 / 10000), ("CAD".toList, 225 / 10000),
   ("CHF".toList, 75 / 10000), ("EUR".toList, 256 / 10000),
   ("GBP".toList, 256 / 10000), ("JPY".toList, 57 / 10000),
   ("USD".toList, 252 / 10000)]

/-- Dictionary lookup `riskFreeRates[code]`; `none` models `KeyError`. -/
def lookupRate (c : List Char) : Option ℚ := riskFreeRates.lookup c

/-- The failure modes of the parsing lines of `__init__`: Python
`IndexError`, `ValueError` (from `float`), `KeyError` (rate lookup). -/
inductive ParseError
  | indexError
  | valueError
  | keyError
deriving DecidableEq

/-- The parsed contract terms of `__init__`: `self.strike`,
`self.countries`, `self.r_domestic`, `self.r_foreign`. -/
structure ContractTerms where
  strike : ℚ
  countries : List (List Char)
  r_domestic : ℚ
  r_foreign : ℚ
deriving DecidableEq

/-- The parsing pipeline of `__init__` lines 32-36 over a token list:
`strike = float(tokens[-2].replace(">", ""))`,
`countries = tokens[0].split("/")`,
`r_domestic = riskFreeRates[countries[0]]`,
`r_foreign = riskFreeRates[countries[1]]`, in Python evaluation order. -/
def parseTokens (tokens : List (List Char)) : Except ParseError ContractTerms :=
  match pyIdxNeg2 tokens with
  | none => .error .indexError
  | some stkTok =>
      match pyFloat (stkTok.filter fun c => c ≠ '>') with
      | none => .error .valueError
      | some stk =>
          match lookupRate ((splitChar '/' (tokens.headD [])).headD []) with
          | none => .error .keyError
          | some rd =>
              match (splitChar '/' (tokens.headD []))[1]? with
              | none => .error .indexError
              | some c1 =>
                  match lookupRate c1 with
                  | none => .error .keyError
                  | some rf => .ok ⟨stk, splitChar '/' (tokens.headD []), rd, rf⟩

/-- Model of the `__init__` line `name.split(" ")`: a split on each
single space character. -/
def parseContract (name : String) : Except ParseError ContractTerms :=
  parseTokens (splitChar ' ' name.toList)

/-- The same pipeline over the claim's whitespace-separated tokens:
the spec-side reading of C7. -/
def specParseWs (name : String) : Except ParseError ContractTerms :=
  parseTokens (wsTokens name.toList)

/-- Whenever the pipeline succeeds, the strike is the parsed
`>`-stripped second-to-last token, the countries are the first token
split on `/`, and both rates come from successful table lookups. -/
theorem parseTokens_ok (tokens : List (List Char)) (t : ContractTerms)
    (h : parseTokens tokens = .ok t) :
    ((pyIdxNeg2 tokens).bind fun s => pyFloat (s.filter fun c => c ≠ '>'))
        = some t.strike ∧
    t.countries = splitChar '/' (tokens.headD []) ∧
    lookupRate (t.countries.headD []) = some t.r_domestic ∧
    (t.countries[1]?).bind lookupRate = some t.r_foreign := by
  unfold parseTokens at h
  cases h1 : pyIdxNeg2 tokens with
  | none => simp only [h1] at h; exact absurd h (by simp)
  | some stkTok =>
      simp only [h1] at h
      cases h2 : pyFloat (stkTok.filter fun c => c ≠ '>') with
      | none => simp only [h2] at h; exact absurd h (by simp)
      | some stk =>
          simp only [h2] at h
          cases h3 : lookupRate ((splitChar '/' (tokens.headD [])).headD []) with
          | none => simp only [h3] at h; exact absurd h (by simp)
          | some rd =>
              simp only [h3] at h
              cases h4 : (splitChar '/' (tokens.headD []))[1]? with
              | none => simp only [h4] at h; exact absurd h (by simp)
              | some c1 =>
                  simp only [h4] at h
                  cases h5 : lookupRate c1 with
                  | none => simp only [h5] at h; exact absurd h (by simp)
                  | some rf =>
                      simp only [h5] at h
                      injection h with h
                      subst h
                      refine ⟨h2, rfl, h3, ?_⟩
                      show ((splitChar '/' (tokens.headD []))[1]?).bind
                          lookupRate = some rf
                      rw [h4]
                      exact h5

/-- Claim C7 (amended): on identifiers whose single-space split agrees
with the whitespace tokenization, the parse of `__init__` is exactly the
claim's whitespace-token pipeline, and a successful parse certifies the
strike extraction, the `/`-split of the pair token, and both rate
lookups; an absent currency code can therefore never yield a successful
parse. -/
theorem c7_parse_single_space (name : String)
    (htok : splitChar ' ' name.toList = wsTokens name.toList) :
    parseContract name = specParseWs name ∧
    ∀ t, parseContract name = .ok t →
      ((pyIdxNeg2 (wsTokens name.toList)).bind
          fun s => pyFloat (s.filter fun c => c ≠ '>')) = some t.strike ∧
      t.countries = splitChar '/' ((wsTokens name.toList).headD []) ∧
      lookupRate (t.countries.headD []) = some t.r_domestic ∧
      (t.countries[1]?).bind lookupRate = some t.r_foreign := by
  have heq : parseContract name = specParseWs name := by
    unfold parseContract specParseWs
    rw [htok]
  refine ⟨heq, ?_⟩
  intro t hok
  unfold parseContract at hok
  rw [htok] at hok
  exact parseTokens_ok _ t hok

/-- Witness for the amended C7 at a well-formed identifier. -/
theorem c7_parse_single_space_witness :
    splitChar ' ' ("EUR/USD 350 >1.1000 (3PM)").toList
        = wsTokens ("EUR/USD 350 >1.1000 (3PM)").toList ∧
    parseContract ("EUR/USD 350 >1.1000 (3PM)")
        = specParseWs ("EUR/USD 350 >1.1000 (3PM)") :=
  ⟨by decide, (c7_parse_single_space ("EUR/USD 350 >1.1000 (3PM)") (by decide)).1⟩

/-- Counterexample to claim C7 as stated: on an identifier with two
adjacent spaces before the last token, the code's `split(" ")` places an
empty token second-to-last, so `float` fails with `ValueError`, while
the claim's whitespace-token reading extracts the strike `1.1`. -/
theorem c7_tokenization_counterexample :
    parseContract ("EUR/USD 1.1  x") = .error .valueError ∧
    ((pyIdxNeg2 (wsTokens ("EUR/USD 1.1  x").toList)).bind
        fun s => pyFloat (s.filter fun c => c ≠ '>')) = some (11 / 10) := by
  constructor
  · rfl
  · have h : ((pyIdxNeg2 (wsTokens ("EUR/USD 1.1  x").toList)).bind
        fun s => pyFloat (s.filter fun c => c ≠ '>'))
        = some (((1 : ℕ) : ℚ) + ((1 : ℕ) : ℚ) / (10 : ℚ) ^ (1 : ℕ)) := rfl
    rw [h]
    norm_num

/-!
## The snapshot fields and `updateFields` (claim C8)
-/

/-- The mutable per-option snapshot fields read and written by
`__init__` and `updateFields`. -/
structure OptSnapshot where
  buyPrice : ℝ
  sellPrice : ℝ
  underlying : ℝ
  conversionFactor : ℝ

/-- Model of `__init__`: the snapshot after construction, with
`self.conversionFactor = 1/self.underlying` computed once (line 34). -/
noncomputable def initSnapshot (buy sell underlying : ℝ) : OptSnapshot :=
  ⟨buy, sell, underlying, 1 / underlying⟩

/-- One pass of the `while not self.doExpiry` body of `updateFields`
(lines 54-57): `buyPrice = buyHistory[-1]`,
`sellPrice = sellHistory[-1]`, `underlying = underlyingHistory`;
`conversionFactor` is not reassigned.  `none` models the `IndexError`
on an empty history list. -/
noncomputable def updateFieldsOnce (buyHistory sellHistory : List ℝ)
    (underlyingHistory : ℝ) (s : OptSnapshot) : Option OptSnapshot :=
  match buyHistory.getLast?, sellHistory.getLast? with
  | some b, some sl =>
      some { s with buyPrice := b, sellPrice := sl, underlying := underlyingHistory }
  | _, _ => none

/-- Counterexample to claim C8 as stated: after a feed update changes the
underlying from `2` to `4`, the stored conversion factor is still the
initial `1/2`, not the reciprocal `1/4` of the current underlying. -/
theorem c8_stale_conversion_counterexample :
    ∃ s1, updateFieldsOnce [10] [9] 4 (initSnapshot 10 9 2) = some s1 ∧
      s1.underlying = 4 ∧ s1.conversionFactor ≠ 1 / s1.underlying := by
  refine ⟨_, rfl, rfl, ?_⟩
  show (1 : ℝ) / 2 ≠ 1 / 4
  norm_num

/-- Claim C8 (amended): `conversionFactor = 1/underlying` holds right
after construction, but `updateFields` replaces the underlying while
leaving `conversionFactor` untouched, so after an update the snapshot
keeps the reciprocal of the initial underlying. -/
theorem c8_conversion_init_not_updated (b sl u : ℝ)
    (buyHistory sellHistory : List ℝ) (uh : ℝ) (s s' : OptSnapshot)
    (h : updateFieldsOnce buyHistory sellHistory uh s = some s') :
    (initSnapshot b sl u).conversionFactor
        = 1 / (initSnapshot b sl u).underlying ∧
    s'.conversionFactor = s.conversionFactor ∧ s'.underlying = uh := by
  have key : s'.conversionFactor = s.conversionFactor ∧ s'.underlying = uh := by
    unfold updateFieldsOnce at h
    cases hB : buyHistory.getLast? with
    | none => simp only [hB] at h; exact Option.noConfusion h
    | some bv =>
        cases hS : sellHistory.getLast? with
        | none => simp only [hB, hS] at h; exact Option.noConfusion h
        | some sv =>
            simp only [hB, hS] at h
            injection h with h
            subst h
            exact ⟨rfl, rfl⟩
  exact ⟨rfl, key.1, key.2⟩

/-- Witness for the amended C8 at the concrete snapshot update. -/
theorem c8_conversion_init_not_updated_witness :
    updateFieldsOnce [10] [9] 4 (initSnapshot 10 9 2)
        = some ⟨10, 9, 4, 1 / 2⟩ ∧
    ((initSnapshot (10 : ℝ) 9 2).conversionFactor
        = 1 / (initSnapshot (10 : ℝ) 9 2).underlying ∧
      (⟨10, 9, 4, 1 / 2⟩ : OptSnapshot).conversionFactor
        = (initSnapshot (10 : ℝ) 9 2).conversionFactor ∧
      (⟨10, 9, 4, 1 / 2⟩ : OptSnapshot).underlying = 4) :=
  ⟨rfl, c8_conversion_init_not_updated 10 9 2 [10] [9] 4 _ _ rfl⟩

/-!
## Input validation behaviour of `calculateVolatility` (claim C6)

The Python code performs no validation: degenerate inputs surface as
raised exceptions from `log`, `sqrt` and `/`.  `PyError.valueError` and
`PyError.zeroDivisionError` model Python's `ValueError` and
`ZeroDivisionError`; `PyError.invalidExpiry` and
`PyError.invalidMarketInput` are the spec's error taxonomy, included so
the claim can be stated, and shown never to be produced.
-/

inductive PyError
  | valueError
  | zeroDivisionError
  | invalidExpiry
  | invalidMarketInput
deriving DecidableEq

/-- Python float division: `ZeroDivisionError` on a zero denominator. -/
noncomputable def pyDiv (a b : ℝ) : Except PyError ℝ :=
  if b = 0 then .error .zeroDivisionError else .ok (a / b)

/-- Python `math.log`: `ValueError` on a nonpositive argument. -/
noncomputable def pyLog (x : ℝ) : Except PyError ℝ :=
  if x ≤ 0 then .error .valueError else .ok (Real.log x)

/-- Python `math.sqrt`: `ValueError` on a negative argument. -/
noncomputable def pySqrt (x : ℝ) : Except PyError ℝ :=
  if x < 0 then .error .valueError else .ok (Real.sqrt x)

/-- The `self.d1` line of the loop with Python's exception behaviour, in
Python evaluation order: `underlying/strike`, `log`, the numerator,
`sqrt(expiry)`, then the division by `vol*sqrt(expiry)`. -/
noncomputable def d1Checked (p : MktParams) (v : ℝ) : Except PyError ℝ :=
  match pyDiv p.underlying p.strike with
  | .error e => .error e
  | .ok q =>
      match pyLog q with
      | .error e => .error e
      | .ok l =>
          match pySqrt p.expiry with
          | .error e => .error e
          | .ok s =>
              pyDiv (l + (p.r_domestic - p.r_foreign + 0.5 * v * v) * p.expiry)
                (v * s)

/-- The calibration loop with Python's exception behaviour: an exception
raised while computing `d1` aborts the call. -/
noncomputable def loopGoChecked (p : MktParams) (prec : ℝ) :
    ℕ → ℝ × ℝ → Option (Except PyError (ℝ × ℝ))
  | 0, _ => none
  | fuel + 1, lh =>
      match d1Checked p ((lh.2 + lh.1) / 2) with
      | .error e => some (.error e)
      | .ok _ =>
          if calibDone p prec lh then some (.ok lh)
          else loopGoChecked p prec fuel (calibStep p lh)

theorem d1Checked_error_source (p : MktParams) (v : ℝ) (e : PyError)
    (h : d1Checked p v = .error e) :
    e = PyError.valueError ∨ e = PyError.zeroDivisionError := by
  unfold d1Checked pyDiv pyLog pySqrt at h
  repeat' split at h
  all_goals split_ifs at * <;> simp_all

theorem loopGoChecked_error_source (p : MktParams) (prec : ℝ) :
    ∀ (n : ℕ) (lh : ℝ × ℝ) (e : PyError),
      loopGoChecked p prec n lh = some (.error e) →
      e = PyError.valueError ∨ e = PyError.zeroDivisionError := by
  intro n
  induction n with
  | zero => intro lh e h; simp [loopGoChecked] at h
  | succ m ih =>
      intro lh e h
      simp only [loopGoChecked] at h
      cases hd : d1Checked p ((lh.2 + lh.1) / 2) with
      | error e' =>
          simp only [hd] at h
          injection h with h
          injection h with h
          subst h
          exact d1Checked_error_source p _ e' hd
      | ok val =>
          simp only [hd] at h
          by_cases hdn : calibDone p prec lh
          · rw [if_pos hdn] at h
            injection h with h
            exact absurd h (by simp)
          · rw [if_neg hdn] at h
            exact ih _ _ h

theorem loopGoChecked_first_error (p : MktParams) (prec : ℝ) (n : ℕ)
    (lh : ℝ × ℝ) (e : PyError)
    (h : d1Checked p ((lh.2 + lh.1) / 2) = .error e) :
    loopGoChecked p prec (n + 1) lh = some (.error e) := by
  simp only [loopGoChecked, h]

/-- Claim C6 (amended): the code performs no input validation; invalid
inputs surface as raised Python exceptions, never as the spec's error
values.  With `expiry = 0` the division by `vol*sqrt(expiry) = 0` raises
`ZeroDivisionError`; with `expiry < 0`, `sqrt` raises `ValueError`; with
`underlying <= 0` (positive strike), `log` raises `ValueError`; with
`strike = 0` the division `underlying/strike` raises
`ZeroDivisionError`; and no run of the loop ever produces
`InvalidExpiry` or `InvalidMarketInput`. -/
theorem c6_exception_behavior (p : MktParams) (prec : ℝ) (fuel : ℕ)
    (hfuel : 1 ≤ fuel) :
    (p.expiry = 0 → 0 < p.strike → 0 < p.underlying →
      loopGoChecked p prec fuel calibStart
        = some (.error PyError.zeroDivisionError)) ∧
    (p.expiry < 0 → 0 < p.strike → 0 < p.underlying →
      loopGoChecked p prec fuel calibStart
        = some (.error PyError.valueError)) ∧
    (p.underlying ≤ 0 → 0 < p.strike →
      loopGoChecked p prec fuel calibStart
        = some (.error PyError.valueError)) ∧
    (p.strike = 0 →
      loopGoChecked p prec fuel calibStart
        = some (.error PyError.zeroDivisionError)) ∧
    (∀ (n : ℕ) (lh : ℝ × ℝ),
      loopGoChecked p prec n lh ≠ some (.error PyError.invalidExpiry) ∧
      loopGoChecked p prec n lh ≠ some (.error PyError.invalidMarketInput)) := by
  obtain ⟨m, rfl⟩ : ∃ m, fuel = m + 1 := ⟨fuel - 1, by omega⟩
  refine ⟨?_, ?_, ?_, ?_, ?_⟩
  · intro hT hK hS
    refine loopGoChecked_first_error p prec m calibStart _ ?_
    unfold d1Checked pyDiv pyLog pySqrt
    simp only [if_neg hK.ne', if_neg (not_le.mpr (div_pos hS hK)), hT,
      if_neg (lt_irrefl (0 : ℝ)), Real.sqrt_zero, mul_zero, if_pos rfl,
      if_true]
  · intro hT hK hS
    refine loopGoChecked_first_error p prec m calibStart _ ?_
    unfold d1Checked pyDiv pyLog pySqrt
    simp only [if_neg hK.ne', if_neg (not_le.mpr (div_pos hS hK)), if_pos hT]
  · intro hS hK
    refine loopGoChecked_first_error p prec m calibStart _ ?_
    unfold d1Checked pyDiv pyLog
    simp only [if_neg hK.ne',
      if_pos (div_nonpos_of_nonpos_of_nonneg hS hK.le)]
  · intro hK
    refine loopGoChecked_first_error p prec m calibStart _ ?_
    unfold d1Checked pyDiv
    simp only [if_pos hK]
  · intro n lh
    constructor <;> intro hx
    · rcases loopGoChecked_error_source p prec n lh _ hx with h | h <;> cases h
    · rcases loopGoChecked_error_source p prec n lh _ hx with h | h <;> cases h

/-- Expired-contract market inputs: zero time to expiry. -/
noncomputable def pExpired : MktParams := ⟨1, 1, 0, 0, 0, 50, 1⟩

/-- Counterexample to claim C6 as stated: at `expiry = 0` the call fails
with a raised `ZeroDivisionError`, which is not the spec's
`InvalidExpiry` error value. -/
theorem c6_error_counterexample :
    loopGoChecked pExpired 0.05 1 calibStart
        = some (.error PyError.zeroDivisionError) ∧
    PyError.zeroDivisionError ≠ PyError.invalidExpiry := by
  constructor
  · refine loopGoChecked_first_error pExpired 0.05 0 calibStart _ ?_
    unfold d1Checked pyDiv pyLog pySqrt pExpired
    norm_num
  · decide

/-- Witness for the amended C6 at the concrete expired input. -/
theorem c6_exception_behavior_witness :
    (1 : ℕ) ≤ 1 ∧
    (pExpired.expiry = 0 → 0 < pExpired.strike → 0 < pExpired.underlying →
      loopGoChecked pExpired 0.05 1 calibStart
        = some (.error PyError.zeroDivisionError)) :=
  ⟨le_refl 1, (c6_exception_behavior pExpired 0.05 1 (le_refl 1)).1⟩

end NadexBot
